import Mathlib

/-!
Verification development for the VideoGrabberBot repository.

The definitions below are a shallow embedding of the parts of the source
code that the verified properties are about:

* `VGB.Storage` embeds `bot/services/storage.py` (`UrlStorage`): an
  insertion-ordered association list stands for the Python `dict`,
  time is a `Nat` number of seconds, and the TTL / maximum-size
  configuration values are explicit parameters (in the source they are
  read from the environment via `bot/config.py`).
* `VGB.Queue` embeds `bot/services/queue.py` (`DownloadQueue`): the
  `asyncio.Queue` backing FIFO and the `_queue_items` tracking list are
  both kept as Lean lists, the worker loop `_process_queue` becomes a
  recursive drain over the backing list, and the success/failure of each
  download is an oracle parameter.
* `VGB.Downloader` embeds `bot/services/downloader.py`: the yt-dlp engine
  is a black box described by an `EngineBehavior` record (what size it
  reports, whether the download call fails, which files it writes), the
  temporary-directory contents are a list of (path, size) pairs, and the
  exception flow becomes `Except`.
* `VGB.Handlers` embeds `bot/handlers/download.py`: callback payloads are
  lists of characters, splitting on `:` is `splitOnColon`, and the
  observable effects of `process_format_selection` (inline acknowledgment
  answers, storage mutation, enqueued tasks) are collected in a record.
-/

set_option autoImplicit false

namespace VGB

/-! ## Association-list dictionary (model of the Python `dict`)

Python dictionaries preserve insertion order; assignment to an existing key
overwrites in place, assignment to a fresh key appends, and `dict.get`
returns the value stored under the key.  `dictInsert`, `dictGet` and
`dictErase` reproduce that behaviour on a `List (String × α)`.
-/

/-- `d[k] = v` on a Python dict: overwrite the binding in place if `k` is
present, append it otherwise. -/
def dictInsert {α : Type} (k : String) (v : α) : List (String × α) → List (String × α)
  | [] => [(k, v)]
  | (k', v') :: rest => if k' = k then (k, v) :: rest else (k', v') :: dictInsert k v rest

/-- `d.get(k)` on a Python dict. -/
def dictGet {α : Type} (k : String) : List (String × α) → Option α
  | [] => none
  | (k', v') :: rest => if k' = k then some v' else dictGet k rest

/-- `d.pop(k, None)` on a Python dict: remove the binding for `k` if present. -/
def dictErase {α : Type} (k : String) : List (String × α) → List (String × α)
  | [] => []
  | (k', v') :: rest => if k' = k then rest else (k', v') :: dictErase k rest

@[simp] theorem dictGet_nil {α : Type} (k : String) : dictGet (α := α) k [] = none := rfl

theorem dictGet_dictInsert {α : Type} (k : String) (v : α) (d : List (String × α)) :
    dictGet k (dictInsert k v d) = some v := by
  induction d with
  | nil => simp [dictInsert, dictGet]
  | cons p rest ih =>
    obtain ⟨k', v'⟩ := p
    by_cases h : k' = k
    · simp [dictInsert, dictGet, h]
    · simp [dictInsert, dictGet, h, ih]

theorem dictGet_dictInsert_ne {α : Type} (k k' : String) (v : α) (d : List (String × α))
    (h : k' ≠ k) : dictGet k' (dictInsert k v d) = dictGet k' d := by
  have h' : k ≠ k' := Ne.symm h
  induction d with
  | nil => simp [dictInsert, dictGet, h']
  | cons p rest ih =>
    obtain ⟨k₀, v₀⟩ := p
    by_cases h0 : k₀ = k
    · subst h0
      simp [dictInsert, dictGet, h']
    · simp [dictInsert, dictGet, h0, ih]

/-- Every binding of `dictInsert k v d` is either the new binding or one of `d`. -/
theorem mem_dictInsert {α : Type} (k : String) (v : α) (d : List (String × α))
    (p : String × α) (hp : p ∈ dictInsert k v d) : p = (k, v) ∨ p ∈ d := by
  induction d with
  | nil => simpa [dictInsert] using hp
  | cons q rest ih =>
    obtain ⟨k', v'⟩ := q
    by_cases h : k' = k
    · simp only [dictInsert, if_pos h, List.mem_cons] at hp
      rcases hp with h1 | h1
      · exact Or.inl h1
      · exact Or.inr (List.mem_cons_of_mem _ h1)
    · simp only [dictInsert, if_neg h, List.mem_cons] at hp
      rcases hp with h1 | h1
      · exact Or.inr (by simp [h1])
      · rcases ih h1 with h2 | h2
        · exact Or.inl h2
        · exact Or.inr (List.mem_cons_of_mem _ h2)

/-- If no binding of `d` satisfies the key, lookup on `d` fails. -/
theorem dictGet_eq_none_of_forall {α : Type} (k : String) (d : List (String × α))
    (h : ∀ v, (k, v) ∈ d → False) : dictGet k d = none := by
  induction d with
  | nil => rfl
  | cons p rest ih =>
    obtain ⟨k', v'⟩ := p
    by_cases hk : k' = k
    · exact absurd (h v' (by simp [hk])) id
    · simp only [dictGet, if_neg hk]
      exact ih (fun v hv => h v (List.mem_cons_of_mem _ hv))

end VGB

namespace VGB.Storage

/-- One value of the `UrlStorage._data` dict: the tuple
`(url, format_id, timestamp)` from `bot/services/storage.py`. -/
structure StorageEntry where
  url : String
  formatId : Option String
  timestamp : Nat
deriving DecidableEq, Repr

/-- The configuration values consumed by `UrlStorage`
(`config.TTL_SECONDS` and `config.MAX_STORAGE_SIZE`). -/
structure StorageConfig where
  ttlSeconds : Nat
  maxStorageSize : Nat
deriving DecidableEq, Repr

/-- The `UrlStorage._data` dict. -/
abbrev StorageData := List (String × StorageEntry)

/-- `UrlStorage._cleanup_expired_entries`: drop every entry whose age
`now - timestamp` strictly exceeds the TTL.  (With `Nat` subtraction a
timestamp in the future gives age `0`, exactly as the Python float
difference is then negative and hence not `> TTL`.) -/
def cleanupExpiredEntries (cfg : StorageConfig) (now : Nat) (d : StorageData) : StorageData :=
  d.filter (fun p => ¬ now - p.2.timestamp > cfg.ttlSeconds)

/-- Stable insertion for the descending-by-timestamp sort: the model of
`sorted(self._data.items(), key=lambda x: x[1][2], reverse=True)`, which is a
stable sort, so it is uniquely determined and equal to this insertion sort. -/
def insertByTsDesc (p : String × StorageEntry) :
    List (String × StorageEntry) → List (String × StorageEntry)
  | [] => [p]
  | q :: qs => if q.2.timestamp ≤ p.2.timestamp then p :: q :: qs else q :: insertByTsDesc p qs

/-- Stable sort of the storage items by timestamp, newest first. -/
def sortByTsDesc : List (String × StorageEntry) → List (String × StorageEntry)
  | [] => []
  | p :: ps => insertByTsDesc p (sortByTsDesc ps)

/-- `UrlStorage._enforce_size_limit`: if the dict holds more than
`MAX_STORAGE_SIZE` entries, keep only the `MAX_STORAGE_SIZE` newest
(the dict is rebuilt in descending-timestamp order, as in the source). -/
def enforceSizeLimit (cfg : StorageConfig) (d : StorageData) : StorageData :=
  if d.length ≤ cfg.maxStorageSize then d
  else (sortByTsDesc d).take cfg.maxStorageSize

/-- `UrlStorage.store_url`: sweep expired entries, enforce the size limit,
then insert `(url, None, now)` under the freshly generated id and return the
id.  The id draw `str(uuid.uuid4())[:8]` is an explicit parameter `newId`. -/
def storeUrl (cfg : StorageConfig) (now : Nat) (newId : String) (url : String)
    (d : StorageData) : String × StorageData :=
  let d1 := cleanupExpiredEntries cfg now d
  let d2 := enforceSizeLimit cfg d1
  (newId, dictInsert newId ⟨url, none, now⟩ d2)

/-- `UrlStorage._get_storage_data(url_id, 0)` followed by the
`isinstance(value, str)` test: the `url` component is always a string, so a
present, unexpired entry always yields its url. -/
def getUrl (cfg : StorageConfig) (now : Nat) (urlId : String) (d : StorageData) : Option String :=
  match dictGet urlId (cleanupExpiredEntries cfg now d) with
  | some e => some e.url
  | none => none

/-- `UrlStorage._get_storage_data(url_id, 1)`: the `format_id` component is
`None` or a string; only a string is returned. -/
def getFormat (cfg : StorageConfig) (now : Nat) (urlId : String) (d : StorageData) :
    Option String :=
  match dictGet urlId (cleanupExpiredEntries cfg now d) with
  | some e => e.formatId
  | none => none

/-- `UrlStorage.store_format`: sweep expired entries, then overwrite the
`format_id` component of the entry, keeping its url and timestamp; `False`
if the id is absent (or just expired). -/
def storeFormat (cfg : StorageConfig) (now : Nat) (urlId : String) (formatId : String)
    (d : StorageData) : Bool × StorageData :=
  match dictGet urlId (cleanupExpiredEntries cfg now d) with
  | none => (false, cleanupExpiredEntries cfg now d)
  | some e =>
    (true, dictInsert urlId ⟨e.url, some formatId, e.timestamp⟩ (cleanupExpiredEntries cfg now d))

/-- `UrlStorage.clear_url`: `self._data.pop(url_id, None)`. -/
def clearUrl (urlId : String) (d : StorageData) : StorageData :=
  dictErase urlId d

end VGB.Storage

namespace VGB.Storage

/-- An entry inserted at the current instant survives the expiry sweep and is
found by lookup, whatever the rest of the dict contains. -/
theorem dictGet_cleanup_dictInsert (cfg : StorageConfig) (now : Nat) (k : String)
    (e : StorageEntry) (d : StorageData) (he : ¬ now - e.timestamp > cfg.ttlSeconds) :
    dictGet k (cleanupExpiredEntries cfg now (dictInsert k e d)) = some e := by
  have he' : now ≤ cfg.ttlSeconds + e.timestamp := by omega
  induction d with
  | nil => simp [dictInsert, cleanupExpiredEntries, dictGet, he']
  | cons p rest ih =>
    obtain ⟨k', v'⟩ := p
    by_cases hk : k' = k
    · simp [dictInsert, cleanupExpiredEntries, dictGet, hk, he']
    · by_cases hkeep : now ≤ cfg.ttlSeconds + v'.timestamp
      · simpa [dictInsert, cleanupExpiredEntries, dictGet, hk, hkeep] using ih
      · simpa [dictInsert, cleanupExpiredEntries, dictGet, hk, hkeep] using ih

/-- Claim C8: cache round-trip.  For every string `url` (empty or non-empty),
immediately after `token = store(url)` a `get(token)` returns `url`: on the
embedding of `UrlStorage.store_url` / `UrlStorage.get_url`, at the same
instant and with no intervening mutation, the lookup of the returned id
yields exactly the stored url, for every prior cache content, configuration
and generated id. -/
theorem cache_round_trip (cfg : StorageConfig) (now : Nat) (newId url : String)
    (d : StorageData) :
    getUrl cfg now (storeUrl cfg now newId url d).1 (storeUrl cfg now newId url d).2
      = some url := by
  unfold storeUrl getUrl
  rw [dictGet_cleanup_dictInsert cfg now newId ⟨url, none, now⟩ _ (by simp)]

/-- Membership is preserved by the stable insertion step. -/
theorem mem_insertByTsDesc (p q : String × StorageEntry)
    (l : List (String × StorageEntry)) (h : q ∈ insertByTsDesc p l) : q = p ∨ q ∈ l := by
  induction l with
  | nil => simpa [insertByTsDesc] using h
  | cons r rs ih =>
    by_cases hc : r.2.timestamp ≤ p.2.timestamp
    · simp only [insertByTsDesc, if_pos hc, List.mem_cons] at h
      rcases h with h | h | h
      · exact Or.inl h
      · exact Or.inr (by simp [h])
      · exact Or.inr (List.mem_cons_of_mem _ h)
    · simp only [insertByTsDesc, if_neg hc, List.mem_cons] at h
      rcases h with h | h
      · exact Or.inr (by simp [h])
      · rcases ih h with h' | h'
        · exact Or.inl h'
        · exact Or.inr (List.mem_cons_of_mem _ h')

/-- Membership is preserved by the descending sort. -/
theorem mem_sortByTsDesc (q : String × StorageEntry) (l : List (String × StorageEntry))
    (h : q ∈ sortByTsDesc l) : q ∈ l := by
  induction l with
  | nil => simp [sortByTsDesc] at h
  | cons r rs ih =>
    rcases mem_insertByTsDesc r q (sortByTsDesc rs) h with h' | h'
    · simp [h']
    · exact List.mem_cons_of_mem _ (ih h')

/-- Every binding surviving the expiry sweep was present and unexpired. -/
theorem mem_cleanup (cfg : StorageConfig) (now : Nat) (d : StorageData)
    (q : String × StorageEntry) (h : q ∈ cleanupExpiredEntries cfg now d) :
    q ∈ d ∧ ¬ now - q.2.timestamp > cfg.ttlSeconds := by
  have := List.mem_filter.mp h
  exact ⟨this.1, by simpa using this.2⟩

/-- Every binding surviving the size enforcement was present before it. -/
theorem mem_enforceSizeLimit (cfg : StorageConfig) (d : StorageData)
    (q : String × StorageEntry) (h : q ∈ enforceSizeLimit cfg d) : q ∈ d := by
  unfold enforceSizeLimit at h
  split at h
  · exact h
  · exact mem_sortByTsDesc q d (List.take_subset _ _ h)

/-- Claim C9: cache expiry.  If every binding the cache holds under a token
was created at a time `T` with `t > T + TTL` (strictly later than the
expiry instant), then at time `t` both `get` and `getFormat` on that token
return "not found", and a subsequent `store` call performed at time `t`
under a different fresh id does not bring the expired entry back: the token
still resolves to "not found" afterwards. -/
theorem cache_expiry (cfg : StorageConfig) (d : StorageData) (tok : String) (t : Nat)
    (hexp : ∀ e : StorageEntry, (tok, e) ∈ d → t > e.timestamp + cfg.ttlSeconds) :
    getUrl cfg t tok d = none ∧ getFormat cfg t tok d = none ∧
      ∀ newId url' : String, newId ≠ tok →
        getUrl cfg t tok (storeUrl cfg t newId url' d).2 = none := by
  have hclean : dictGet tok (cleanupExpiredEntries cfg t d) = none := by
    apply dictGet_eq_none_of_forall
    intro v hv
    obtain ⟨hmem, hkeep⟩ := mem_cleanup cfg t d (tok, v) hv
    have h1 : ¬ t - v.timestamp > cfg.ttlSeconds := hkeep
    have h2 := hexp v hmem
    omega
  refine ⟨by simp [getUrl, hclean], by simp [getFormat, hclean], ?_⟩
  intro newId url' hne
  unfold storeUrl getUrl
  have hnone :
      dictGet tok (cleanupExpiredEntries cfg t
        (dictInsert newId ⟨url', none, t⟩ (enforceSizeLimit cfg (cleanupExpiredEntries cfg t d))))
        = none := by
    apply dictGet_eq_none_of_forall
    intro v hv
    obtain ⟨hmem, hkeep⟩ := mem_cleanup cfg t _ (tok, v) hv
    rcases mem_dictInsert _ _ _ _ hmem with heq | hmem'
    · exact hne (congrArg Prod.fst heq).symm
    · have hd := mem_cleanup cfg t d (tok, v) (mem_enforceSizeLimit cfg _ _ hmem')
      have h1 : ¬ t - v.timestamp > cfg.ttlSeconds := hd.2
      have h2 := hexp v hd.1
      omega
  rw [hnone]

/-- Closed witness for claim C9 at a concrete cache state: an entry created
at time `0` with a TTL of `3600` is gone at time `3601`, and storing a new
url at time `3601` does not resurrect it. -/
theorem cache_expiry_witness :
    getUrl ⟨3600, 1000⟩ 3601 "a1b2c3d4" [("a1b2c3d4", ⟨"https://youtu.be/x", none, 0⟩)] = none ∧
    getFormat ⟨3600, 1000⟩ 3601 "a1b2c3d4" [("a1b2c3d4", ⟨"https://youtu.be/x", none, 0⟩)] = none ∧
    getUrl ⟨3600, 1000⟩ 3601 "a1b2c3d4"
      (storeUrl ⟨3600, 1000⟩ 3601 "e5f6a7b8" "https://youtu.be/y"
        [("a1b2c3d4", ⟨"https://youtu.be/x", none, 0⟩)]).2 = none := by
  have h := cache_expiry ⟨3600, 1000⟩ [("a1b2c3d4", ⟨"https://youtu.be/x", none, 0⟩)]
    "a1b2c3d4" 3601
    (by
      intro e he
      rcases List.mem_singleton.mp he with heq
      have : e = ⟨"https://youtu.be/x", none, 0⟩ := congrArg Prod.snd heq
      subst this
      decide)
  exact ⟨h.1, h.2.1, h.2.2 "e5f6a7b8" "https://youtu.be/y" (by decide)⟩

/-- Claim C10: `store_format` frame.  For a token whose entry survives the
expiry sweep, `store_format(token, f)` succeeds and afterwards the entry
holds exactly the original url, the new format `f`, and the original
creation timestamp — picking a format neither extends nor shortens the
entry's time to expiry. -/
theorem store_format_frame (cfg : StorageConfig) (now : Nat) (tok f : String)
    (d : StorageData) (url : String) (f0 : Option String) (T : Nat)
    (hfind : dictGet tok (cleanupExpiredEntries cfg now d) = some ⟨url, f0, T⟩) :
    (storeFormat cfg now tok f d).1 = true ∧
      dictGet tok (storeFormat cfg now tok f d).2 = some ⟨url, some f, T⟩ := by
  unfold storeFormat
  rw [hfind]
  exact ⟨rfl, dictGet_dictInsert tok _ _⟩

/-- Closed witness for claim C10: setting format `video:HD` on a live entry
keeps its url and timestamp and only changes the format component. -/
theorem store_format_frame_witness :
    (storeFormat ⟨3600, 1000⟩ 10 "a1b2c3d4" "video:HD"
      [("a1b2c3d4", ⟨"https://youtu.be/x", none, 3⟩)]).1 = true ∧
    dictGet "a1b2c3d4"
      (storeFormat ⟨3600, 1000⟩ 10 "a1b2c3d4" "video:HD"
        [("a1b2c3d4", ⟨"https://youtu.be/x", none, 3⟩)]).2
      = some ⟨"https://youtu.be/x", some "video:HD", 3⟩ :=
  store_format_frame ⟨3600, 1000⟩ 10 "a1b2c3d4" "video:HD"
    [("a1b2c3d4", ⟨"https://youtu.be/x", none, 3⟩)] "https://youtu.be/x" none 3 (by decide)

end VGB.Storage

namespace VGB.Storage

/-- A sequence of `store_url` calls, all performed at the same instant; each
element of the list carries the generated id and the url to store. -/
def storeAll (cfg : StorageConfig) (now : Nat) :
    List (String × String) → StorageData → StorageData
  | [], d => d
  | (newId, url) :: ps, d => storeAll cfg now ps (storeUrl cfg now newId url d).2

/-- The expiry sweep is the identity when no entry is expired. -/
theorem cleanup_eq_self (cfg : StorageConfig) (now : Nat) (d : StorageData)
    (h : ∀ p ∈ d, ¬ now - p.2.timestamp > cfg.ttlSeconds) :
    cleanupExpiredEntries cfg now d = d :=
  List.filter_eq_self.mpr (fun a ha => by simpa using h a ha)

/-- The size enforcement is the identity at or under the cap. -/
theorem enforce_eq_self (cfg : StorageConfig) (d : StorageData)
    (h : d.length ≤ cfg.maxStorageSize) : enforceSizeLimit cfg d = d := by
  simp [enforceSizeLimit, h]

/-- Inserting a fresh key appends the binding at the end. -/
theorem dictInsert_eq_append {α : Type} (k : String) (v : α) (d : List (String × α))
    (h : k ∉ d.map Prod.fst) : dictInsert k v d = d ++ [(k, v)] := by
  induction d with
  | nil => rfl
  | cons p rest ih =>
    obtain ⟨k', v'⟩ := p
    simp only [List.map_cons, List.mem_cons, not_or] at h
    have hk' : ¬ k' = k := fun he => h.1 he.symm
    simp [dictInsert, hk', ih h.2]

theorem length_insertByTsDesc (p : String × StorageEntry)
    (l : List (String × StorageEntry)) : (insertByTsDesc p l).length = l.length + 1 := by
  induction l with
  | nil => rfl
  | cons q qs ih =>
    by_cases h : q.2.timestamp ≤ p.2.timestamp <;> simp [insertByTsDesc, h, ih]

theorem length_sortByTsDesc (l : List (String × StorageEntry)) :
    (sortByTsDesc l).length = l.length := by
  induction l with
  | nil => rfl
  | cons q qs ih => simp [sortByTsDesc, length_insertByTsDesc, ih]

theorem length_enforceSizeLimit (cfg : StorageConfig) (d : StorageData) :
    (enforceSizeLimit cfg d).length = min cfg.maxStorageSize d.length := by
  unfold enforceSizeLimit
  split
  · omega
  · simp [List.length_take, length_sortByTsDesc]

theorem length_dictInsert_le {α : Type} (k : String) (v : α) (d : List (String × α)) :
    (dictInsert k v d).length ≤ d.length + 1 := by
  induction d with
  | nil => simp [dictInsert]
  | cons p rest ih =>
    obtain ⟨k', v'⟩ := p
    by_cases h : k' = k
    · simp [dictInsert, h]
    · simp only [dictInsert, if_neg h, List.length_cons]
      omega

/-- Every `store_url` call ends with at most `maxStorageSize + 1` entries:
the sweep and the size enforcement run before the new entry is inserted. -/
theorem length_storeUrl_le (cfg : StorageConfig) (now : Nat) (newId url : String)
    (d : StorageData) : (storeUrl cfg now newId url d).2.length ≤ cfg.maxStorageSize + 1 := by
  have h1 : (enforceSizeLimit cfg (cleanupExpiredEntries cfg now d)).length
      ≤ cfg.maxStorageSize := by
    rw [length_enforceSizeLimit]; omega
  have h2 : (storeUrl cfg now newId url d).2
      = dictInsert newId ⟨url, none, now⟩
          (enforceSizeLimit cfg (cleanupExpiredEntries cfg now d)) := rfl
  rw [h2]
  calc (dictInsert newId ⟨url, none, now⟩
          (enforceSizeLimit cfg (cleanupExpiredEntries cfg now d))).length
      ≤ (enforceSizeLimit cfg (cleanupExpiredEntries cfg now d)).length + 1 :=
        length_dictInsert_le _ _ _
    _ ≤ cfg.maxStorageSize + 1 := by omega

theorem self_mem_insertByTsDesc (p : String × StorageEntry)
    (l : List (String × StorageEntry)) : p ∈ insertByTsDesc p l := by
  induction l with
  | nil => simp [insertByTsDesc]
  | cons q qs ih =>
    by_cases h : q.2.timestamp ≤ p.2.timestamp <;> simp [insertByTsDesc, h, ih]

theorem mem_insertByTsDesc_of_mem (p q : String × StorageEntry)
    (l : List (String × StorageEntry)) (h : q ∈ l) : q ∈ insertByTsDesc p l := by
  induction l with
  | nil => simp at h
  | cons r rs ih =>
    by_cases hc : r.2.timestamp ≤ p.2.timestamp
    · simp only [insertByTsDesc, if_pos hc]
      exact List.mem_cons_of_mem _ h
    · simp only [insertByTsDesc, if_neg hc]
      rcases List.mem_cons.mp h with h' | h'
      · exact h' ▸ List.mem_cons_self _ _
      · exact List.mem_cons_of_mem _ (ih h')

theorem mem_sortByTsDesc_of_mem (q : String × StorageEntry)
    (l : List (String × StorageEntry)) (h : q ∈ l) : q ∈ sortByTsDesc l := by
  induction l with
  | nil => simp at h
  | cons r rs ih =>
    rcases List.mem_cons.mp h with h' | h'
    · exact h' ▸ self_mem_insertByTsDesc r (sortByTsDesc rs)
    · exact mem_insertByTsDesc_of_mem r q (sortByTsDesc rs) (ih h')

theorem pairwise_insertByTsDesc (p : String × StorageEntry)
    (l : List (String × StorageEntry))
    (hl : l.Pairwise (fun a b => b.2.timestamp ≤ a.2.timestamp)) :
    (insertByTsDesc p l).Pairwise (fun a b => b.2.timestamp ≤ a.2.timestamp) := by
  induction l with
  | nil => simp [insertByTsDesc]
  | cons q qs ih =>
    rcases List.pairwise_cons.mp hl with ⟨hq, hqs⟩
    by_cases h : q.2.timestamp ≤ p.2.timestamp
    · simp only [insertByTsDesc, if_pos h]
      refine List.Pairwise.cons ?_ hl
      intro x hx
      rcases List.mem_cons.mp hx with rfl | hx'
      · exact h
      · exact le_trans (hq x hx') h
    · simp only [insertByTsDesc, if_neg h]
      refine List.Pairwise.cons ?_ (ih hqs)
      intro x hx
      rcases mem_insertByTsDesc p x qs hx with rfl | hx'
      · omega
      · exact hq x hx'

theorem pairwise_sortByTsDesc (l : List (String × StorageEntry)) :
    (sortByTsDesc l).Pairwise (fun a b => b.2.timestamp ≤ a.2.timestamp) := by
  induction l with
  | nil => simp [sortByTsDesc]
  | cons q qs ih => exact pairwise_insertByTsDesc q _ ih

/-- When the cap is exceeded, the enforcement keeps exactly `maxStorageSize`
entries and every dropped entry is at least as old as every kept entry. -/
theorem enforce_drops_oldest (cfg : StorageConfig) (d : StorageData)
    (h : d.length > cfg.maxStorageSize) :
    (enforceSizeLimit cfg d).length = cfg.maxStorageSize ∧
      ∀ p ∈ enforceSizeLimit cfg d, ∀ q ∈ d, q ∉ enforceSizeLimit cfg d →
        q.2.timestamp ≤ p.2.timestamp := by
  have hif : enforceSizeLimit cfg d = (sortByTsDesc d).take cfg.maxStorageSize := by
    unfold enforceSizeLimit
    rw [if_neg (by omega)]
  constructor
  · rw [hif, List.length_take, length_sortByTsDesc]
    omega
  · intro p hp q hq hqn
    have hpw := pairwise_sortByTsDesc d
    rw [← List.take_append_drop cfg.maxStorageSize (sortByTsDesc d)] at hpw
    obtain ⟨-, -, hrel⟩ := List.pairwise_append.mp hpw
    have hq' : q ∈ (sortByTsDesc d).take cfg.maxStorageSize
        ++ (sortByTsDesc d).drop cfg.maxStorageSize := by
      rw [List.take_append_drop]
      exact mem_sortByTsDesc_of_mem q d hq
    rcases List.mem_append.mp hq' with h1 | h2
    · exact absurd (hif ▸ h1) hqn
    · exact hrel p (hif ▸ hp) q h2

/-- A run of fresh stores at one instant: with pairwise-distinct generated
ids and no more than `maxStorageSize + 1` total entries, every store simply
appends and no eviction ever fires. -/
theorem storeAll_fresh (cfg : StorageConfig) (now : Nat) (ps : List (String × String))
    (d : StorageData)
    (hnodup : (d.map Prod.fst ++ ps.map Prod.fst).Nodup)
    (hlen : d.length + ps.length ≤ cfg.maxStorageSize + 1)
    (hfresh : ∀ p ∈ d, p.2.timestamp = now) :
    storeAll cfg now ps d = d ++ ps.map (fun q => (q.1, ⟨q.2, none, now⟩)) := by
  induction ps generalizing d with
  | nil => simp [storeAll]
  | cons q ps ih =>
    obtain ⟨newId, url⟩ := q
    have hclean : cleanupExpiredEntries cfg now d = d :=
      cleanup_eq_self cfg now d (fun p hp => by rw [hfresh p hp]; omega)
    have hlen' : d.length ≤ cfg.maxStorageSize := by
      simp only [List.length_cons] at hlen
      omega
    have henf : enforceSizeLimit cfg d = d := enforce_eq_self cfg d hlen'
    have hmemk : newId ∉ d.map Prod.fst := by
      have hdis := (List.nodup_append.mp hnodup).2.2
      exact fun hin => hdis hin (by simp)
    have hstep : (storeUrl cfg now newId url d).2 = d ++ [(newId, ⟨url, none, now⟩)] := by
      show dictInsert newId ⟨url, none, now⟩
          (enforceSizeLimit cfg (cleanupExpiredEntries cfg now d)) = _
      rw [hclean, henf, dictInsert_eq_append newId _ d hmemk]
    have hih := ih (d ++ [(newId, (⟨url, none, now⟩ : StorageEntry))])
      (by simpa using hnodup)
      (by simp only [List.length_append, List.length_cons, List.length_nil] at hlen ⊢; omega)
      (by
        intro p hp
        rcases List.mem_append.mp hp with h' | h'
        · exact hfresh p h'
        · simp only [List.mem_singleton] at h'
          rw [h'])
    show storeAll cfg now ps (storeUrl cfg now newId url d).2 = _
    rw [hstep, hih]
    simp

/-- Claim C1 (amended): cache eviction off by one.  The size check of
`store_url` runs before the new entry is inserted, so (1) every store
operation ends with at most `maxStorageSize + 1` entries — one above the
configured maximum, not at it; (2) inserting `maxStorageSize + 1` entries
with distinct fresh ids leaves exactly `maxStorageSize + 1` entries, not
`maxStorageSize`; and (3) when a mutating call does find the cache above
the cap, it drops the oldest entries first, keeping exactly the
`maxStorageSize` newest. -/
theorem cache_eviction_amended (cfg : StorageConfig) :
    (∀ (now : Nat) (newId url : String) (d : StorageData),
        (storeUrl cfg now newId url d).2.length ≤ cfg.maxStorageSize + 1) ∧
    (∀ (now : Nat) (ps : List (String × String)), (ps.map Prod.fst).Nodup →
        ps.length = cfg.maxStorageSize + 1 →
        (storeAll cfg now ps []).length = cfg.maxStorageSize + 1) ∧
    (∀ d : StorageData, d.length > cfg.maxStorageSize →
        (enforceSizeLimit cfg d).length = cfg.maxStorageSize ∧
          ∀ p ∈ enforceSizeLimit cfg d, ∀ q ∈ d, q ∉ enforceSizeLimit cfg d →
            q.2.timestamp ≤ p.2.timestamp) := by
  refine ⟨length_storeUrl_le cfg, ?_, enforce_drops_oldest cfg⟩
  intro now ps hnodup hlen
  rw [storeAll_fresh cfg now ps [] (by simpa using hnodup)
    (by simp only [List.length_nil]; omega) (by simp)]
  simp [hlen]

/-- Closed witness for claim C1 (amended) at `maxStorageSize = 2`: a store on
a 3-entry cache stays at 3 entries or fewer; three fresh stores from empty
leave 3 entries; enforcement on a 3-entry cache keeps 2 and drops the oldest
(the timestamp-0 entry is dropped while the timestamp-2 entry is kept). -/
theorem cache_eviction_amended_witness :
    (storeUrl ⟨3600, 2⟩ 0 "d" "u4"
        [("a", ⟨"u1", none, 0⟩), ("b", ⟨"u2", none, 1⟩), ("c", ⟨"u3", none, 2⟩)]).2.length
      ≤ 3 ∧
    (storeAll ⟨3600, 2⟩ 0 [("a", "u1"), ("b", "u2"), ("c", "u3")] []).length = 3 ∧
    (enforceSizeLimit ⟨3600, 2⟩
        [("a", ⟨"u1", none, 0⟩), ("b", ⟨"u2", none, 1⟩), ("c", ⟨"u3", none, 2⟩)]).length = 2 ∧
    (("a", (⟨"u1", none, 0⟩ : StorageEntry)) : String × StorageEntry).2.timestamp
      ≤ (("c", (⟨"u3", none, 2⟩ : StorageEntry)) : String × StorageEntry).2.timestamp := by
  refine ⟨(cache_eviction_amended ⟨3600, 2⟩).1 0 "d" "u4" _,
    (cache_eviction_amended ⟨3600, 2⟩).2.1 0 [("a", "u1"), ("b", "u2"), ("c", "u3")]
      (by decide) (by decide), ?_, ?_⟩
  · exact ((cache_eviction_amended ⟨3600, 2⟩).2.2
      [("a", ⟨"u1", none, 0⟩), ("b", ⟨"u2", none, 1⟩), ("c", ⟨"u3", none, 2⟩)] (by decide)).1
  · exact ((cache_eviction_amended ⟨3600, 2⟩).2.2
      [("a", ⟨"u1", none, 0⟩), ("b", ⟨"u2", none, 1⟩), ("c", ⟨"u3", none, 2⟩)] (by decide)).2
      ("c", ⟨"u3", none, 2⟩) (by decide)
      ("a", ⟨"u1", none, 0⟩) (by decide) (by decide)

/-- Claim C1 counterexample: with a configured maximum of 2 entries, storing
3 urls (distinct fresh ids, all at time 0, TTL 3600) leaves the cache with 3
entries, not 2 — the store operation does end above the configured maximum
entry count. -/
theorem cache_eviction_counterexample :
    (storeAll ⟨3600, 2⟩ 0 [("a", "u1"), ("b", "u2"), ("c", "u3")] []).length = 3 ∧
    ¬ (storeAll ⟨3600, 2⟩ 0 [("a", "u1"), ("b", "u2"), ("c", "u3")] []).length ≤ 2 := by
  constructor <;> decide

end VGB.Storage

namespace VGB.Queue

/-- The `additional_data` dict attached to a task by the download handler:
`{"bot": bot, "url_id": url_id}`.  The transport handle is opaque, so only
its presence is tracked. -/
structure AdditionalData where
  hasBot : Bool
  urlId : Option String
deriving DecidableEq, Repr

/-- The `DownloadTask` dataclass from `bot/services/queue.py`. -/
structure DownloadTask where
  chat_id : Int
  url : String
  format_string : String
  status_message_id : Option Int := none
  additional_data : Option AdditionalData := none
deriving DecidableEq, Repr

/-- The mutable state of a `DownloadQueue` instance: the `asyncio.Queue`
backing FIFO, the parallel `_queue_items` tracking list, `is_processing`
and `current_task`. -/
structure QueueState where
  queue : List DownloadTask
  queueItems : List DownloadTask
  isProcessing : Bool
  currentTask : Option DownloadTask
deriving DecidableEq, Repr

/-- A freshly constructed `DownloadQueue`. -/
def initialQueue : QueueState := ⟨[], [], false, none⟩

/-- `DownloadQueue.add_task`: append the task to both the FIFO and the
tracking list and return `len(self._queue_items)` after the append.  The
source performs no capacity check of any kind before inserting. -/
def addTask (t : DownloadTask) (s : QueueState) : QueueState × Nat :=
  (⟨s.queue ++ [t], s.queueItems ++ [t], s.isProcessing, s.currentTask⟩,
    (s.queueItems ++ [t]).length)

/-- `DownloadQueue.is_user_in_queue`. -/
def isUserInQueue (chatId : Int) (s : QueueState) : Bool :=
  s.queueItems.any (fun t => t.chat_id == chatId)

/-- The rebuild loop of `DownloadQueue.clear_user_tasks`: walk the tracked
items in order, count the entries of the given chat and keep the others in
their relative order. -/
def partitionUserTasks (chatId : Int) : List DownloadTask → Nat × List DownloadTask
  | [] => (0, [])
  | t :: ts =>
    let r := partitionUserTasks chatId ts
    if t.chat_id = chatId then (r.1 + 1, r.2) else (r.1, t :: r.2)

/-- `DownloadQueue.clear_user_tasks`: an empty tracking list returns `0`
immediately; otherwise both the FIFO and the tracking list are replaced by
the rebuilt sequence and the number of removed tasks is returned.
`current_task` and `is_processing` are not touched. -/
def clearUserTasks (chatId : Int) (s : QueueState) : QueueState × Nat :=
  if s.queueItems = [] then (s, 0)
  else
    let r := partitionUserTasks chatId s.queueItems
    (⟨r.2, r.2, s.isProcessing, s.currentTask⟩, r.1)

/-- `DownloadQueue._process_queue`, the worker loop: while the FIFO is
non-empty, pop the head into `current_task`, remove it from the tracking
list (`List.erase`, first occurrence, as `list.remove` does), run
`_process_single_task` — whose success or raised exception is given by the
`fail` oracle and is caught and logged in the loop — and in the `finally`
block reset `current_task` to `None`; when the FIFO is empty set
`is_processing` to `False`.  The returned list logs each attempted task
with its outcome, in processing order. -/
def processQueue (fail : DownloadTask → Bool) (s : QueueState) :
    QueueState × List (DownloadTask × Bool) :=
  match h : s.queue with
  | [] => (⟨s.queue, s.queueItems, false, s.currentTask⟩, [])
  | t :: rest =>
    -- during the iteration is_processing is true and current_task is `some t`;
    -- the `finally` block has reset current_task to `none` when the next
    -- iteration (the recursive call) starts
    let r := processQueue fail ⟨rest, s.queueItems.erase t, true, none⟩
    (r.1, (t, fail t) :: r.2)
termination_by s.queue.length
decreasing_by simp [h]

/-- A finite sequence of `add_task` calls. -/
def enqueueAll (ts : List DownloadTask) (s : QueueState) : QueueState :=
  ts.foldl (fun s t => (addTask t s).1) s

theorem enqueueAll_spec (ts : List DownloadTask) (s : QueueState) :
    enqueueAll ts s
      = ⟨s.queue ++ ts, s.queueItems ++ ts, s.isProcessing, s.currentTask⟩ := by
  induction ts generalizing s with
  | nil => simp [enqueueAll]
  | cons t ts ih =>
    show enqueueAll ts (addTask t s).1 = _
    rw [ih]
    simp [addTask]

/-- Draining a synchronized queue attempts every task in order and ends in
the idle state. -/
theorem processQueue_drain (fail : DownloadTask → Bool) (l : List DownloadTask) (b : Bool) :
    processQueue fail ⟨l, l, b, none⟩
      = (⟨[], [], false, none⟩, l.map (fun t => (t, fail t))) := by
  induction l generalizing b with
  | nil =>
    rw [processQueue]
    simp
  | cons t rest ih =>
    rw [processQueue]
    simp only [List.erase_cons_head]
    rw [ih true]
    simp

end VGB.Queue

namespace VGB.Queue

/-- Claim C4: queue drains to idle with error isolation.  For every finite
sequence of enqueued tasks and every success/failure oracle for the
downloads, the worker loop attempts every task in enqueue order (the log
records each task with its outcome, failures included), ends with
`is_processing = false` and `current_task = None`, and leaves both the FIFO
and the tracked pending list empty: one task's exception never terminates
the loop, blocks later tasks, or leaves `is_processing` stuck true. -/
theorem queue_drains_to_idle (fail : DownloadTask → Bool) (ts : List DownloadTask) :
    (processQueue fail (enqueueAll ts initialQueue)).1.isProcessing = false ∧
    (processQueue fail (enqueueAll ts initialQueue)).1.currentTask = none ∧
    (processQueue fail (enqueueAll ts initialQueue)).1.queue = [] ∧
    (processQueue fail (enqueueAll ts initialQueue)).1.queueItems = [] ∧
    (processQueue fail (enqueueAll ts initialQueue)).2
      = ts.map (fun t => (t, fail t)) := by
  have h0 : enqueueAll ts initialQueue = ⟨ts, ts, false, none⟩ := by
    rw [enqueueAll_spec]
    simp [initialQueue]
  rw [h0, processQueue_drain]
  simp

/-- The rebuild loop keeps exactly the other users' tasks, in order, and
counts the removed ones. -/
theorem partitionUserTasks_spec (chatId : Int) (l : List DownloadTask) :
    partitionUserTasks chatId l
      = (l.countP (fun t => t.chat_id == chatId),
         l.filter (fun t => !(t.chat_id == chatId))) := by
  induction l with
  | nil => simp [partitionUserTasks]
  | cons t ts ih =>
    by_cases h : t.chat_id = chatId
    · simp [partitionUserTasks, ih, h, List.countP_cons, List.filter_cons]
    · simp [partitionUserTasks, ih, h, List.countP_cons, List.filter_cons]

/-- Claim C5: cancellation scoping.  For every queue state whose FIFO and
tracking list agree and every destination chat, `clear_user_tasks` removes
exactly the pending entries of that chat (both views become the filtered
tracking list, preserving the relative order of the remaining entries),
returns the number of removed entries, and leaves `current_task` and
`is_processing` untouched — even when the in-flight task belongs to the
same chat. -/
theorem cancel_all_scoping (chatId : Int) (s : QueueState)
    (hsync : s.queue = s.queueItems) :
    (clearUserTasks chatId s).1.queueItems
        = s.queueItems.filter (fun t => !(t.chat_id == chatId)) ∧
    (clearUserTasks chatId s).1.queue
        = s.queueItems.filter (fun t => !(t.chat_id == chatId)) ∧
    (clearUserTasks chatId s).2 = s.queueItems.countP (fun t => t.chat_id == chatId) ∧
    (clearUserTasks chatId s).1.currentTask = s.currentTask ∧
    (clearUserTasks chatId s).1.isProcessing = s.isProcessing := by
  by_cases hq : s.queueItems = []
  · simp [clearUserTasks, hq, hsync]
  · simp [clearUserTasks, hq, partitionUserTasks_spec]

/-- Closed witness for claim C5: from a queue holding tasks of chats 1, 2, 1
with an in-flight task of chat 1, cancelling chat 1 removes the two pending
chat-1 tasks, keeps the chat-2 task, and leaves the in-flight chat-1 task
and the processing flag untouched. -/
theorem cancel_all_scoping_witness :
    (clearUserTasks 1
        ⟨[⟨1, "u1", "best", none, none⟩, ⟨2, "u2", "best", none, none⟩,
          ⟨1, "u3", "best", none, none⟩],
         [⟨1, "u1", "best", none, none⟩, ⟨2, "u2", "best", none, none⟩,
          ⟨1, "u3", "best", none, none⟩],
         true, some ⟨1, "u0", "best", none, none⟩⟩).1.queueItems
      = [⟨2, "u2", "best", none, none⟩] ∧
    (clearUserTasks 1
        ⟨[⟨1, "u1", "best", none, none⟩, ⟨2, "u2", "best", none, none⟩,
          ⟨1, "u3", "best", none, none⟩],
         [⟨1, "u1", "best", none, none⟩, ⟨2, "u2", "best", none, none⟩,
          ⟨1, "u3", "best", none, none⟩],
         true, some ⟨1, "u0", "best", none, none⟩⟩).2 = 2 ∧
    (clearUserTasks 1
        ⟨[⟨1, "u1", "best", none, none⟩, ⟨2, "u2", "best", none, none⟩,
          ⟨1, "u3", "best", none, none⟩],
         [⟨1, "u1", "best", none, none⟩, ⟨2, "u2", "best", none, none⟩,
          ⟨1, "u3", "best", none, none⟩],
         true, some ⟨1, "u0", "best", none, none⟩⟩).1.currentTask
      = some ⟨1, "u0", "best", none, none⟩ := by
  have h := cancel_all_scoping 1
    ⟨[⟨1, "u1", "best", none, none⟩, ⟨2, "u2", "best", none, none⟩,
      ⟨1, "u3", "best", none, none⟩],
     [⟨1, "u1", "best", none, none⟩, ⟨2, "u2", "best", none, none⟩,
      ⟨1, "u3", "best", none, none⟩],
     true, some ⟨1, "u0", "best", none, none⟩⟩ rfl
  refine ⟨?_, ?_, ?_⟩
  · rw [h.1]; decide
  · rw [h.2.2.1]; decide
  · rw [h.2.2.2.1]

/-- Claim C2 evaluated at the failing input: with the default configured
queue capacity of 50 (`MAX_QUEUE_SIZE`) already reached — all 50 pending
tasks even belonging to the one requesting chat, far above the per-user
limit of 5 (`MAX_USER_TASKS`) — `add_task` does not fail: it inserts the
task anyway, changes the pending sequence, and returns position 51.  The
source's `add_task` consults neither configured limit and never raises
`QueueFullError`, so no capacity guard exists before enqueue. -/
theorem queue_capacity_guard_missing :
    (addTask ⟨42, "https://youtu.be/x", "best", none, none⟩
        ⟨List.replicate 50 ⟨42, "https://youtu.be/x", "best", none, none⟩,
         List.replicate 50 ⟨42, "https://youtu.be/x", "best", none, none⟩,
         true, none⟩).2 = 51 ∧
    (addTask ⟨42, "https://youtu.be/x", "best", none, none⟩
        ⟨List.replicate 50 ⟨42, "https://youtu.be/x", "best", none, none⟩,
         List.replicate 50 ⟨42, "https://youtu.be/x", "best", none, none⟩,
         true, none⟩).1.queueItems.length = 51 ∧
    (List.replicate 50 (⟨42, "https://youtu.be/x", "best", none, none⟩ : DownloadTask)).countP
        (fun t => t.chat_id == 42) = 50 := by
  refine ⟨?_, ?_, ?_⟩ <;> decide

end VGB.Queue

namespace VGB.Downloader

/-- The download-failure taxonomy of `bot/utils/exceptions.py` as mapped by
`bot/services/downloader.py` (`DownloadError` covers the unexpected /
no-files cases). -/
inductive DlError
  | videoNotFound
  | unsupportedFormat
  | networkError
  | videoTooLarge
  | downloadFailed
deriving DecidableEq, Repr

/-- Outcome of `ydl.extract_info(url, download=False)`.  The source
classifies a raised `yt_dlp.utils.DownloadError` by substring tests on its
message ("not available"/"video not found", "unsupported url"/"unsupported
format", anything else); the classification outcome is abstracted into
which constructor applies.  On success the engine may report an expected
`filesize`. -/
inductive InfoResult
  | ok (filesize : Option Nat)
  | notAvailable
  | unsupportedUrl
  | otherError
deriving DecidableEq, Repr

/-- Black-box behaviour of one yt-dlp invocation: the info-extraction
outcome, whether `ydl.download` raises, the files it writes into the fresh
temp directory (path and size), and the reported title. -/
structure EngineBehavior where
  info : InfoResult
  downloadRaises : Bool
  producedFiles : List (String × Nat)
  title : Option String
deriving DecidableEq, Repr

/-- `_validate_file_size` from `bot/services/downloader.py`: if the size
exceeds `config.MAX_FILE_SIZE`, unlink the file when a path was given and
raise `VideoTooLargeError`; the pair returned is the disk contents after the
possible unlink and the raised error, if any. -/
def validateFileSize (maxFileSize : Nat) (fileSize : Nat) (filePath : Option String)
    (files : List (String × Nat)) : List (String × Nat) × Option DlError :=
  if fileSize > maxFileSize then
    (match filePath with
      | some p => files.filter (fun f => ¬ f.1 = p)
      | none => files,
      some .videoTooLarge)
  else (files, none)

/-- `_sync_download_video_file`: extract info (mapping engine failures onto
the taxonomy), pre-check a reported non-zero expected size against the
maximum before downloading, download, glob the temp directory, fail if no
file was produced, then re-check the first file's actual size (deleting it
if oversized).  Returns the temp-directory contents after the call, whether
`ydl.download` was invoked at all, and the result (first file with its
size, or the raised error). -/
def syncDownloadVideoFile (maxFileSize : Nat) (eng : EngineBehavior)
    (files0 : List (String × Nat)) :
    List (String × Nat) × Bool × Except DlError (String × Nat) :=
  match eng.info with
  | .notAvailable => (files0, false, .error .videoNotFound)
  | .unsupportedUrl => (files0, false, .error .unsupportedFormat)
  | .otherError => (files0, false, .error .networkError)
  | .ok reported =>
    -- `if video_info and video_info.get("filesize"):` — only a present,
    -- non-zero expected size triggers the pre-download check
    match (if reported.getD 0 ≠ 0
        then (validateFileSize maxFileSize (reported.getD 0) none files0).2
        else none) with
    | some e => (files0, false, .error e)
    | none =>
      if eng.downloadRaises then (files0, true, .error .networkError)
      else
        match files0 ++ eng.producedFiles with
        | [] => (files0 ++ eng.producedFiles, true, .error .downloadFailed)
        | f :: _ =>
          match validateFileSize maxFileSize f.2 (some f.1) (files0 ++ eng.producedFiles) with
          | (files2, some e) => (files2, true, .error e)
          | (files2, none) => (files2, true, .ok f)

/-- One transport side effect observable during
`download_youtube_video`. -/
inductive Effect
  | statusMessage (chatId : Int) (text : String)
  | sendFile (chatId : Int) (path : String) (caption : String)
  | userErrorMessage (chatId : Int) (kind : DlError)
  | adminNotify (kind : DlError)
deriving DecidableEq, Repr

/-- `TELEGRAM_UPLOAD_LIMIT` from `bot/services/downloader.py`. -/
def TELEGRAM_UPLOAD_LIMIT : Nat := 50 * 1024 * 1024

/-- `_send_downloaded_file`: edit the status message with the file info,
refuse files over the transport's own upload ceiling (without deleting
them), otherwise send the document with a caption derived from the engine
title (falling back to "Video") and confirm completion. -/
def sendDownloadedFile (chatId : Int) (filePath : String) (fileSize : Nat)
    (title : Option String) (effects : List Effect) : List Effect :=
  if fileSize > TELEGRAM_UPLOAD_LIMIT then
    effects ++ [.statusMessage chatId "File Too Large"]
  else
    effects ++ [.sendFile chatId filePath (title.getD "Video"),
      .statusMessage chatId "File sent successfully"]

/-- `_handle_download_error`: exactly one user-facing message whose kind
follows the failure taxonomy, then an operator notification with the
technical detail. -/
def handleDownloadError (chatId : Int) (e : DlError) (effects : List Effect) : List Effect :=
  effects ++ [.userErrorMessage chatId e, .adminNotify e]

/-- The world state threaded through the downloader: the correlation-cache
dict and the transport effects.  The temporary directory is created fresh
by `tempfile.mkdtemp` and removed in the `finally` block, so it has no net
effect and is local to the call. -/
structure World where
  storage : VGB.Storage.StorageData
  effects : List Effect
deriving DecidableEq, Repr

/-- `download_youtube_video`: create the temp dir, send/update the status
message, run the engine (in a worker thread, under the timeout — a timeout
is one more source of `networkError`, already covered by the engine
oracle), deliver the file or map the failure through
`_handle_download_error`, and clean the temp dir up.  The Boolean result
tells whether the call returned normally (`False` means it re-raised
`DownloadError` to the worker loop).  Neither this function nor anything it
calls imports or touches the URL storage: `w.storage` is passed through
unchanged on every path. -/
def downloadYoutubeVideo (maxFileSize : Nat) (eng : EngineBehavior) (chatId : Int)
    (w : World) : World × Bool :=
  let effects0 := w.effects ++ [.statusMessage chatId "Download started"]
  match (syncDownloadVideoFile maxFileSize eng []).2.2 with
  | .ok f =>
    (⟨w.storage, sendDownloadedFile chatId f.1 f.2 eng.title effects0⟩, true)
  | .error e =>
    (⟨w.storage, handleDownloadError chatId e effects0⟩, false)

/-- `DownloadQueue._process_single_task`: read the current task, fetch the
bot instance out of `additional_data` (returning early if it is absent),
and invoke `download_youtube_video` with the task's chat, url and format.
The `url_id` token carried in `additional_data` is never used: no call to
`clear_url` (or any storage operation) occurs anywhere in the processing
path. -/
def processSingleTask (maxFileSize : Nat) (eng : EngineBehavior)
    (task : VGB.Queue.DownloadTask) (w : World) : World × Bool :=
  match task.additional_data with
  | some ad =>
    if ad.hasBot then downloadYoutubeVideo maxFileSize eng task.chat_id w
    else (w, false)
  | none => (w, false)

end VGB.Downloader

namespace VGB.Downloader

/-- Claim C6: file-size ceiling enforcement.  (1) If the engine reports an
expected size exceeding the configured maximum, the task fails with
`VideoTooLargeError` before any download is attempted: `ydl.download` is
never invoked and no file is written.  (2) If the downloaded file's actual
size exceeds the maximum, the file is deleted from disk and the task fails
with `VideoTooLargeError`.  (3) A size within the limit is never rejected
by `_validate_file_size`, and nothing is deleted. -/
theorem size_limit_checks :
    (∀ (maxFileSize sz : Nat) (eng : EngineBehavior) (files0 : List (String × Nat)),
        eng.info = .ok (some sz) → sz > maxFileSize →
        syncDownloadVideoFile maxFileSize eng files0
          = (files0, false, .error .videoTooLarge)) ∧
    (∀ (maxFileSize : Nat) (eng : EngineBehavior) (p : String) (sz : Nat)
        (rest : List (String × Nat)),
        eng.info = .ok none → eng.downloadRaises = false →
        eng.producedFiles = (p, sz) :: rest → sz > maxFileSize →
        syncDownloadVideoFile maxFileSize eng []
            = (((p, sz) :: rest).filter (fun f => ¬ f.1 = p), true, .error .videoTooLarge) ∧
          ∀ szq : Nat, (p, szq) ∉ (syncDownloadVideoFile maxFileSize eng []).1) ∧
    (∀ (maxFileSize sz : Nat) (fp : Option String) (files : List (String × Nat)),
        sz ≤ maxFileSize → validateFileSize maxFileSize sz fp files = (files, none)) := by
  refine ⟨?_, ?_, ?_⟩
  · intro maxFileSize sz eng files0 hinfo hsz
    have h0 : sz ≠ 0 := by omega
    unfold syncDownloadVideoFile
    rw [hinfo]
    simp [h0, validateFileSize, hsz]
  · intro maxFileSize eng p sz rest hinfo hdl hfiles hsz
    have heq : syncDownloadVideoFile maxFileSize eng []
        = (((p, sz) :: rest).filter (fun f => ¬ f.1 = p), true, .error .videoTooLarge) := by
      unfold syncDownloadVideoFile
      rw [hinfo, hfiles]
      simp [hdl, validateFileSize, hsz]
    refine ⟨heq, ?_⟩
    intro szq hmem
    rw [heq] at hmem
    simp [List.mem_filter] at hmem
  · intro maxFileSize sz fp files hsz
    unfold validateFileSize
    rw [if_neg (by omega)]

/-- Closed witness for claim C6: with the default 50 MB maximum, a reported
expected size of 3 GB fails before download with nothing on disk; an actual
downloaded 60 MB file is deleted and the task fails; a 10 MB file passes
the check untouched. -/
theorem size_limit_checks_witness :
    syncDownloadVideoFile 52428800 ⟨.ok (some 3221225472), false, [], none⟩ []
      = ([], false, .error .videoTooLarge) ∧
    syncDownloadVideoFile 52428800 ⟨.ok none, false, [("Demo.mp4", 62914560)], some "Demo"⟩ []
      = ([], true, .error .videoTooLarge) ∧
    ("Demo.mp4", 62914560) ∉ (syncDownloadVideoFile 52428800
      ⟨.ok none, false, [("Demo.mp4", 62914560)], some "Demo"⟩ []).1 ∧
    validateFileSize 52428800 10485760 (some "Demo.mp4") [("Demo.mp4", 10485760)]
      = ([("Demo.mp4", 10485760)], none) := by
  refine ⟨?_, ?_, ?_, ?_⟩
  · exact size_limit_checks.1 52428800 3221225472 ⟨.ok (some 3221225472), false, [], none⟩ []
      rfl (by decide)
  · rw [(size_limit_checks.2.1 52428800
      ⟨.ok none, false, [("Demo.mp4", 62914560)], some "Demo"⟩ "Demo.mp4" 62914560 []
      rfl rfl rfl (by decide)).1]
    rfl
  · exact (size_limit_checks.2.1 52428800
      ⟨.ok none, false, [("Demo.mp4", 62914560)], some "Demo"⟩ "Demo.mp4" 62914560 []
      rfl rfl rfl (by decide)).2 62914560
  · exact size_limit_checks.2.2 52428800 10485760 (some "Demo.mp4")
      [("Demo.mp4", 10485760)] (by decide)

/-- Claim C3 evaluated at a failing input: the worker processes a task whose
`additional_data` carries the correlation token `"a1b2c3d4"` while the cache
holds that token's entry.  Both when the download succeeds (the file is
delivered — exactly one `sendFile` effect — and `_process_single_task`
returns normally) and when the engine fails, the processing path performs no
storage operation: afterwards the entry is still present and `get_url` on
the token returns the stored url instead of the "not found" the claim
requires.  No call to `clear_url` exists in `queue.py` or `downloader.py`,
although the comment in `handlers/download.py` ("it will be done by the
queue processor") promises one. -/
theorem cache_entry_not_discarded :
    VGB.Storage.getUrl ⟨3600, 1000⟩ 0 "a1b2c3d4"
        (processSingleTask 52428800
          ⟨.ok none, false, [("Demo.mp4", 10485760)], some "Demo"⟩
          ⟨42, "https://youtu.be/x", "best[height<=720]", some 7, some ⟨true, some "a1b2c3d4"⟩⟩
          ⟨[("a1b2c3d4", ⟨"https://youtu.be/x", some "video:HD", 0⟩)], []⟩).1.storage
      = some "https://youtu.be/x" ∧
    VGB.Storage.getUrl ⟨3600, 1000⟩ 0 "a1b2c3d4"
        (processSingleTask 52428800
          ⟨.otherError, false, [], none⟩
          ⟨42, "https://youtu.be/x", "best[height<=720]", some 7, some ⟨true, some "a1b2c3d4"⟩⟩
          ⟨[("a1b2c3d4", ⟨"https://youtu.be/x", some "video:HD", 0⟩)], []⟩).1.storage
      = some "https://youtu.be/x" ∧
    (processSingleTask 52428800
        ⟨.ok none, false, [("Demo.mp4", 10485760)], some "Demo"⟩
        ⟨42, "https://youtu.be/x", "best[height<=720]", some 7, some ⟨true, some "a1b2c3d4"⟩⟩
        ⟨[("a1b2c3d4", ⟨"https://youtu.be/x", some "video:HD", 0⟩)], []⟩).1.effects.countP
      (fun e => match e with | .sendFile _ _ _ => true | _ => false) = 1 ∧
    (processSingleTask 52428800
        ⟨.ok none, false, [("Demo.mp4", 10485760)], some "Demo"⟩
        ⟨42, "https://youtu.be/x", "best[height<=720]", some 7, some ⟨true, some "a1b2c3d4"⟩⟩
        ⟨[("a1b2c3d4", ⟨"https://youtu.be/x", some "video:HD", 0⟩)], []⟩).2 = true := by
  refine ⟨?_, ?_, ?_, ?_⟩ <;> decide

end VGB.Downloader

namespace VGB.Handlers

/-- Python `callback_data.split(":")` on a list of characters: splitting on
every colon, with empty segments preserved (`"".split(":") == [""]`). -/
def splitOnColon : List Char → List (List Char)
  | [] => [[]]
  | c :: rest =>
    if c = ':' then [] :: splitOnColon rest
    else
      match splitOnColon rest with
      | [] => [[c]]
      | s :: ss => (c :: s) :: ss

/-- Python `":".join(parts)`. -/
def intercalateColon : List (List Char) → List Char
  | [] => []
  | [s] => s
  | s :: ss => s ++ ':' :: intercalateColon ss

/-- `_parse_callback_data` from `bot/handlers/download.py`: split on `:`;
fewer than 3 segments raise `ValueError` (modelled as `none`); otherwise
`cmd = parts[0]`, `url_id = parts[-1]`, and `format_id` is the middle
segments rejoined with `:`. -/
def parseCallbackData (s : List Char) : Option (List Char × List Char × List Char) :=
  match splitOnColon s with
  | p0 :: p1 :: p2 :: ps =>
    some (p0, intercalateColon ((p1 :: p2 :: ps).dropLast), (p1 :: p2 :: ps).getLastD [])
  | _ => none

/-- `get_available_formats` built over `config.VIDEO_FORMATS` and
`config.AUDIO_FORMAT`: format id prefixed with its kind, label, and yt-dlp
format selector. -/
def availableFormats : List (String × String × String) :=
  [("video:SD", "SD (480p)", "best[height<=480]"),
   ("video:HD", "HD (720p)", "best[height<=720]"),
   ("video:FHD", "Full HD (1080p)", "best[height<=1080]"),
   ("video:ORIGINAL", "Original (Max Quality)", "best"),
   ("audio:MP3", "MP3 (320kbps)", "bestaudio/best")]

/-- `get_format_by_id` from `bot/services/formats.py`. -/
def getFormatById (formatId : String) : Option (String × String) :=
  dictGet formatId availableFormats

/-- The observable outcome of one `process_format_selection` call: the
inline `callback.answer` acknowledgments issued, the storage state and the
queue state afterwards. -/
structure CallbackResult where
  answers : List String
  storage : VGB.Storage.StorageData
  queue : VGB.Queue.QueueState
deriving DecidableEq, Repr

/-- `process_format_selection` (with `_validate_callback_data`,
`_get_url_and_format` and `_process_download_request` inlined): a malformed
payload is acknowledged with "Invalid format selection" and nothing else
happens; an unknown or expired token (or one resolving to an empty url —
Python's `if not url`) is acknowledged with "URL not found or expired"; an
unknown format id with "Selected format not found"; otherwise the format
choice is stored, the request is acknowledged, and the task is enqueued
(the worker spawn is not part of the state transition modelled here). -/
def processFormatSelection (cfg : VGB.Storage.StorageConfig) (now : Nat) (chatId : Int)
    (statusMessageId : Option Int) (data : List Char)
    (storage : VGB.Storage.StorageData) (queue : VGB.Queue.QueueState) : CallbackResult :=
  match parseCallbackData data with
  | none => ⟨["Invalid format selection"], storage, queue⟩
  | some (_cmd, fid, tok) =>
    match VGB.Storage.getUrl cfg now (String.mk tok) storage with
    | none => ⟨["URL not found or expired"], storage, queue⟩
    | some url =>
      if url.isEmpty then ⟨["URL not found or expired"], storage, queue⟩
      else
        match getFormatById (String.mk fid) with
        | none => ⟨["Selected format not found"], storage, queue⟩
        | some fd =>
          ⟨["Processing your request in " ++ fd.1 ++ " format..."],
           (VGB.Storage.storeFormat cfg now (String.mk tok) (String.mk fid) storage).2,
           (VGB.Queue.addTask
              ⟨chatId, url, fd.2, statusMessageId, some ⟨true, some (String.mk tok)⟩⟩
              queue).1⟩

theorem splitOnColon_ne_nil (s : List Char) : splitOnColon s ≠ [] := by
  cases s with
  | nil => simp [splitOnColon]
  | cons c rest =>
    by_cases h : c = ':'
    · simp [splitOnColon, h]
    · cases hs : splitOnColon rest with
      | nil => simp [splitOnColon, h, hs]
      | cons s ss => simp [splitOnColon, h, hs]

theorem splitOnColon_no_colon (s : List Char) (h : ':' ∉ s) : splitOnColon s = [s] := by
  induction s with
  | nil => rfl
  | cons c cs ih =>
    simp only [List.mem_cons, not_or] at h
    have hc : ¬ c = ':' := fun he => h.1 he.symm
    simp [splitOnColon, hc, ih h.2]

theorem splitOnColon_append (xs ys : List Char) :
    splitOnColon (xs ++ ':' :: ys) = splitOnColon xs ++ splitOnColon ys := by
  induction xs with
  | nil => simp [splitOnColon]
  | cons c cs ih =>
    by_cases h : c = ':'
    · simp [splitOnColon, h, ih]
    · cases hs : splitOnColon cs with
      | nil => exact absurd hs (splitOnColon_ne_nil cs)
      | cons s ss =>
        simp only [List.cons_append, splitOnColon]
        rw [if_neg h, if_neg h]
        simp only [List.append_eq]
        rw [ih, hs]
        simp

theorem intercalateColon_splitOnColon (s : List Char) :
    intercalateColon (splitOnColon s) = s := by
  induction s with
  | nil => rfl
  | cons c cs ih =>
    by_cases h : c = ':'
    · subst h
      simp only [splitOnColon, if_pos rfl]
      cases hs : splitOnColon cs with
      | nil => exact absurd hs (splitOnColon_ne_nil cs)
      | cons s ss =>
        rw [hs] at ih
        simp [intercalateColon, ih]
    · cases hs : splitOnColon cs with
      | nil => exact absurd hs (splitOnColon_ne_nil cs)
      | cons s ss =>
        rw [hs] at ih
        simp only [splitOnColon, if_neg h, hs]
        cases ss with
        | nil => simpa [intercalateColon] using congrArg (c :: ·) ih
        | cons t ts => simpa [intercalateColon] using congrArg (c :: ·) ih

/-- Lookup-shape lemma: when the split has head `a`, at least one middle
segment, and last segment `tok`, the parse returns the head, the rejoined
middle, and `tok`. -/
theorem parseCallbackData_of_split (s : List Char) (a b tok : List Char)
    (l : List (List Char)) (h : splitOnColon s = a :: ((b :: l) ++ [tok])) :
    parseCallbackData s = some (a, intercalateColon (b :: l), tok) := by
  unfold parseCallbackData
  rw [h]
  cases l with
  | nil => simp [intercalateColon]
  | cons c cs =>
    have he : b :: c :: (cs ++ [tok]) = (b :: c :: cs) ++ [tok] := by simp
    have hd : (b :: c :: (cs ++ [tok])).dropLast = b :: c :: cs := by
      rw [he, List.dropLast_concat]
    have hg : (b :: c :: (cs ++ [tok])).getLastD [] = tok := by
      rw [he]
      exact List.getLastD_concat [] tok (b :: c :: cs)
    show some (a, intercalateColon ((b :: c :: (cs ++ [tok])).dropLast),
        (b :: c :: (cs ++ [tok])).getLastD []) = some (a, intercalateColon (b :: c :: cs), tok)
    rw [hd, hg]

end VGB.Handlers

namespace VGB.Handlers

/-- Claim C7: callback-payload parsing.  (1) Round trip: for every command
prefix and cache token free of `:` and every format identifier — which may
itself contain `:` — parsing `cmd ++ ":" ++ formatId ++ ":" ++ token`
yields the prefix, the middle segments rejoined with `:` (the format
identifier intact), and the token.  (2) A payload splitting into fewer than
3 segments is rejected: the parse fails, `process_format_selection` issues
exactly one "Invalid format selection" inline acknowledgment, and neither
the storage nor the queue changes — no task is enqueued. -/
theorem callback_parse_round_trip :
    (∀ cmd fid tok : List Char, ':' ∉ cmd → ':' ∉ tok →
        parseCallbackData (cmd ++ ':' :: (fid ++ ':' :: tok)) = some (cmd, fid, tok)) ∧
    (∀ data : List Char, (splitOnColon data).length < 3 →
        parseCallbackData data = none ∧
        ∀ (cfg : VGB.Storage.StorageConfig) (now : Nat) (chatId : Int)
          (statusMessageId : Option Int) (storage : VGB.Storage.StorageData)
          (queue : VGB.Queue.QueueState),
          processFormatSelection cfg now chatId statusMessageId data storage queue
            = ⟨["Invalid format selection"], storage, queue⟩) := by
  constructor
  · intro cmd fid tok hc ht
    obtain ⟨q, qs, hq⟩ : ∃ q qs, splitOnColon fid = q :: qs := by
      cases hs : splitOnColon fid with
      | nil => exact absurd hs (splitOnColon_ne_nil fid)
      | cons q qs => exact ⟨q, qs, rfl⟩
    have hsplit : splitOnColon (cmd ++ ':' :: (fid ++ ':' :: tok))
        = cmd :: ((q :: qs) ++ [tok]) := by
      rw [splitOnColon_append, splitOnColon_no_colon cmd hc, splitOnColon_append,
        splitOnColon_no_colon tok ht, hq]
      simp
    rw [parseCallbackData_of_split _ cmd q tok qs hsplit, ← hq,
      intercalateColon_splitOnColon]
  · intro data hlen
    have hnone : parseCallbackData data = none := by
      unfold parseCallbackData
      cases hs : splitOnColon data with
      | nil => rfl
      | cons p0 tl =>
        cases tl with
        | nil => rfl
        | cons p1 tl2 =>
          cases tl2 with
          | nil => rfl
          | cons p2 ps =>
            exfalso
            rw [hs] at hlen
            simp only [List.length_cons] at hlen
            omega
    refine ⟨hnone, ?_⟩
    intro cfg now chatId statusMessageId storage queue
    unfold processFormatSelection
    rw [hnone]

/-- Closed witness for claim C7: the payload `"fmt:video:HD:a1b2c3d4"`
parses back into prefix `fmt`, format id `video:HD` (its inner colon
preserved) and token `a1b2c3d4`; the malformed payload `"fmt:onlyonepart"`
produces exactly one "Invalid format selection" acknowledgment and leaves
the storage and the queue unchanged. -/
theorem callback_parse_round_trip_witness :
    parseCallbackData
        ("fmt".toList ++ ':' :: ("video:HD".toList ++ ':' :: "a1b2c3d4".toList))
      = some ("fmt".toList, "video:HD".toList, "a1b2c3d4".toList) ∧
    processFormatSelection ⟨3600, 1000⟩ 0 42 (some 7) "fmt:onlyonepart".toList
        [("a1b2c3d4", ⟨"https://youtu.be/x", none, 0⟩)] VGB.Queue.initialQueue
      = ⟨["Invalid format selection"],
         [("a1b2c3d4", ⟨"https://youtu.be/x", none, 0⟩)], VGB.Queue.initialQueue⟩ := by
  constructor
  · exact callback_parse_round_trip.1 "fmt".toList "video:HD".toList "a1b2c3d4".toList
      (by decide) (by decide)
  · exact (callback_parse_round_trip.2 "fmt:onlyonepart".toList (by decide)).2
      ⟨3600, 1000⟩ 0 42 (some 7)
      [("a1b2c3d4", ⟨"https://youtu.be/x", none, 0⟩)] VGB.Queue.initialQueue

end VGB.Handlers
